/-
  Verification of the DevDocsMCP crawl-and-index core
  (internal/docs/scraper/scraper.go, internal/docs/indexer/indexer.go).

  The Go source is shallowly embedded: HTML trees are a mutual inductive
  (node / forest, mirroring the FirstChild/NextSibling traversal of
  golang.org/x/net/html), URL parsing and resolution, network fetches and
  filesystem effects are an explicit environment record, and the
  DownloadDoc dequeue loop together with its fetchAndProcess workers is
  modelled by two small-step transition systems whose only
  nondeterminism is scheduling.  `Step` lets every enqueue succeed
  immediately; it admits strictly more interleavings than the program
  (a send can only add interleavings, never remove reachable states of
  the shared data), so the safety invariants proved over it carry over.
  `BStep` additionally carries what decides liveness: the queue channel
  of scraper.go line 56 has capacity 100, and the send of line 172 is
  executed while `s.mu` is held, so a worker meeting a full buffer
  blocks holding the mutex.
-/
import Mathlib

set_option maxHeartbeats 1000000
set_option maxRecDepth 8000
set_option autoImplicit false

/-! ## HTML documents

`HNode` mirrors `html.Node` restricted to the node kinds the scraper
inspects: text nodes and element nodes (tag, attributes, children).
The children are a forest, matching the FirstChild/NextSibling chain. -/

mutual

inductive HNode where
  | text (s : String) : HNode
  | elem (tag : String) (attrs : List (String × String)) (children : HForest) : HNode

inductive HForest where
  | nil : HForest
  | cons (hd : HNode) (tl : HForest) : HForest

end

/-! ## extractText (scraper.go lines 220-237)

The Go function walks the tree with a string builder: a text node writes
its data; a `script` or `style` element returns before visiting its
children; every other node recurses into its children.  The builder
output is the left-to-right concatenation of the written pieces. -/

mutual

def extractText : HNode → String
  | .text s => s
  | .elem tag _ cs =>
      if tag = ("script") ∨ tag = ("style") then ("") else extractTextF cs

def extractTextF : HForest → String
  | .nil => ("")
  | .cons c cs => extractText c ++ extractTextF cs

end

/-! Specification-side description of the same function, written from the
spec's words: the list of all text nodes in document order, where a node
nested (at any depth) beneath a `script` or `style` element contributes
nothing. -/

mutual

def visibleTexts : HNode → List String
  | .text s => [s]
  | .elem tag _ cs =>
      if tag = ("script") ∨ tag = ("style") then [] else visibleTextsF cs

def visibleTextsF : HForest → List String
  | .nil => []
  | .cons c cs => visibleTexts c ++ visibleTextsF cs

end

/-- Concatenation of a list of strings, in order. -/
def concatTexts : List String → String
  | [] => ("")
  | s :: rest => s ++ concatTexts rest

theorem concatTexts_append (l1 l2 : List String) :
    concatTexts (l1 ++ l2) = concatTexts l1 ++ concatTexts l2 := by
  induction l1 with
  | nil => simp [concatTexts]
  | cons s rest ih => simp [concatTexts, ih, String.append_assoc]

mutual

theorem extractText_eq_concat (n : HNode) :
    extractText n = concatTexts (visibleTexts n) := by
  cases n with
  | text s => simp [extractText, visibleTexts, concatTexts]
  | elem tag attrs cs =>
      by_cases h : tag = ("script") ∨ tag = ("style")
      · simp [extractText, visibleTexts, h, concatTexts]
      · simp [extractText, visibleTexts, h, extractTextF_eq_concat cs]

theorem extractTextF_eq_concat (f : HForest) :
    extractTextF f = concatTexts (visibleTextsF f) := by
  cases f with
  | nil => simp [extractTextF, visibleTextsF, concatTexts]
  | cons c cs =>
      simp [extractTextF, visibleTextsF, concatTexts_append,
        extractText_eq_concat c, extractTextF_eq_concat cs]

end

/-- **C8.** For every parsed HTML document, `extractText` returns the
concatenation of all text nodes in document order, where everything
nested beneath a `script` or `style` element — at any nesting depth — is
excluded entirely (a `script`/`style` element contributes the empty
string no matter what it contains). -/
theorem c8_extractText_visible_concat :
    (∀ n : HNode, extractText n = concatTexts (visibleTexts n)) ∧
    (∀ attrs cs, extractText (.elem ("script") attrs cs) = ("")) ∧
    (∀ attrs cs, extractText (.elem ("style") attrs cs) = ("")) := by
  refine ⟨extractText_eq_concat, ?_, ?_⟩ <;> intro attrs cs <;> simp [extractText]

/-! ## URLs and the effect environment

`GoURL` abstracts `net/url.URL` to the fields the scraper reads.  URL
parsing, RFC reference resolution, the network, and the filesystem are
functions of an `Env` record; the crawler's code is translated against
this interface, and concrete environments instantiate it in examples. -/

structure GoURL where
  scheme : String
  host : String
  path : String
  frag : String
deriving DecidableEq, Repr

structure Env where
  parseURL : String → Option GoURL
  resolveRef : GoURL → GoURL → GoURL
  urlStr : GoURL → String
  httpGet : String → Option (Nat × Option String)
  mkdirOk : String → Bool
  writeOk : String → Bool
  parseHTML : String → Option HNode

/-- Host of a URL string according to the environment's parser
(`url.Parse(l)` followed by reading `.Host`); `none` when parsing fails. -/
def hostOf (env : Env) (l : String) : Option String :=
  (env.parseURL l).map (fun g => g.host)

/-- `resolveURL` (scraper.go lines 240-250): parse both URLs, resolve the
reference, render it; an unparsable input yields the empty string. -/
def resolveURL (env : Env) (baseURL relativeURL : String) : String :=
  match env.parseURL baseURL with
  | none => ("")
  | some base =>
    match env.parseURL relativeURL with
    | none => ("")
    | some rel => env.urlStr (env.resolveRef base rel)

/-! ## extractLinks (scraper.go lines 186-217)

For an `a` element every `href` attribute is resolved; for `img`,
`script` and `link` elements the `src` attribute is resolved (for `link`,
the `href` attribute instead); empty resolutions are dropped; then the
children are visited in order.  No host filtering happens here. -/

/-- One attribute's contribution: the resolved URL when the key matches
for this tag and the resolution is nonempty. -/
def attrLink (env : Env) (baseURL tag : String) (a : String × String) : Option String :=
  if (tag = ("a") ∧ a.1 = ("href")) ∨
     (tag = ("link") ∧ a.1 = ("href")) ∨
     ((tag = ("img") ∨ tag = ("script")) ∧ a.1 = ("src")) then
    (if resolveURL env baseURL a.2 = ("") then none else some (resolveURL env baseURL a.2))
  else none

mutual

def extractLinks (env : Env) : HNode → String → List String
  | .text _, _ => []
  | .elem tag attrs cs, baseURL =>
      (if tag = ("a") ∨ tag = ("img") ∨ tag = ("script") ∨ tag = ("link") then
        attrs.filterMap (attrLink env baseURL tag)
      else []) ++ extractLinksF env cs baseURL

def extractLinksF (env : Env) : HForest → String → List String
  | .nil, _ => []
  | .cons c cs, baseURL => extractLinks env c baseURL ++ extractLinksF env cs baseURL

end

/-! ## Local file path computation (scraper.go lines 113-133)

Models `strings.TrimPrefix`, `strings.ReplaceAll`, `filepath.Ext`,
`filepath.Join` and `filepath.Dir` on the inputs the scraper produces. -/

/-- `strings.TrimPrefix`. -/
def trimHead (p s : String) : String :=
  if s.startsWith p then s.drop p.length else s

/-- `filepath.Ext`: the suffix of the final path element starting at its
last dot; empty when the final element has no dot. -/
def extOf (s : String) : String :=
  let seg := s.data.reverse.takeWhile (fun c => c ≠ '/')
  if seg.any (fun c => c = '.') then
    String.mk ('.' :: (seg.takeWhile (fun c => c ≠ '.')).reverse)
  else ("")

/-- `filepath.Dir` restricted to the slash-separated paths the scraper
builds. -/
def dirOf (s : String) : String :=
  match s.data.reverse.dropWhile (fun c => c ≠ '/') with
  | [] => (".")
  | _ :: restRev =>
    match restRev with
    | [] => ("/")
    | _ => String.mk restRev.reverse

/-- `filepath.Join` on the scraper's components: join the nonempty parts
with slashes. -/
def joinPath (ps : List String) : String :=
  String.intercalate ("/") (ps.filter (fun p => p ≠ ("")))

/-! ## fetchAndProcess, fetch-and-store phase (scraper.go lines 91-161)

The body runs top to bottom with early returns: network error, body read
error, non-200 status, URL re-parse error, directory creation error, file
write error, HTML parse error.  Only a fully successful run indexes the
text and extracts links; the `AddDocument` error is discarded, so
indexing never stops link extraction. -/

inductive ProcOutcome where
  | netError
  | readError
  | badStatus (code : Nat)
  | urlError
  | mkdirError
  | writeError
  | htmlError
  | success
deriving DecidableEq, Repr

structure ProcResult where
  outcome : ProcOutcome
  saved : Option String
  indexed : Option (String × String)
  links : List String
deriving DecidableEq, Repr

structure Cfg where
  maxDepth : Nat
  downloadPath : String
  docName : String
  docVersion : String
deriving DecidableEq, Repr

/-- The local file path a fetched page is saved under (scraper.go lines
113-132): host+path, initial-host prefix and leading slash stripped,
colons made storage-safe, `index.html`/`.html` appended when needed, and
joined under `downloadPath/docName/docVersion`. -/
def filePathOf (cfg : Cfg) (initialHost : String) (pu : GoURL) : String :=
  let rel1 := trimHead ("/") (trimHead initialHost (pu.host ++ pu.path))
  let rel2 := rel1.replace (":") ("_")
  let rel3 :=
    if rel2.endsWith ("/") ∨ rel2 = ("") then rel2 ++ ("index.html")
    else if extOf rel2 = ("") then rel2 ++ (".html")
    else rel2
  joinPath [cfg.downloadPath, cfg.docName, cfg.docVersion, rel3]

/-- The fetch-and-store phase of `fetchAndProcess`, translated statement
by statement; `initialHost` is the seed's host (used by the
`TrimPrefix`). -/
def processURL (env : Env) (cfg : Cfg) (initialHost currentURL : String) : ProcResult :=
  match env.httpGet currentURL with
  | none => ⟨.netError, none, none, []⟩
  | some (st, obody) =>
    match obody with
    | none => ⟨.readError, none, none, []⟩
    | some body =>
      if st ≠ 200 then ⟨.badStatus st, none, none, []⟩
      else
        match env.parseURL currentURL with
        | none => ⟨.urlError, none, none, []⟩
        | some pu =>
          if env.mkdirOk (dirOf (filePathOf cfg initialHost pu)) = false then
            ⟨.mkdirError, none, none, []⟩
          else if env.writeOk (filePathOf cfg initialHost pu) = false then
            ⟨.writeError, none, none, []⟩
          else
            match env.parseHTML body with
            | none => ⟨.htmlError, some (filePathOf cfg initialHost pu), none, []⟩
            | some tree =>
              ⟨.success, some (filePathOf cfg initialHost pu),
                some (filePathOf cfg initialHost pu, extractText tree),
                extractLinks env tree currentURL⟩

/-! ## The crawl transition system (scraper.go lines 44-183)

State of one `DownloadDoc` invocation: the mutex-protected visited map,
the queue channel's contents, the in-flight `fetchAndProcess` goroutines
(each holding the links it has not yet run its enqueue loop over), the
WaitGroup counter, and — as history variables — the total numbers of
`wg.Add` and `wg.Done` calls and the log of dispatched fetches.

Atomic actions, one per constructor of `Step`:
* the dequeue loop body for one task (test-and-set under the mutex, the
  depth check, and the goroutine dispatch);
* one iteration of a worker's enqueue loop (mutex-protected visited
  check, `wg.Add(1)`, channel send);
* a worker's return (`defer s.wg.Done()`).
The only nondeterminism is which goroutine acts, as in the Go program. -/

structure WorkerSt where
  url : String
  depth : Nat
  pending : List String
deriving DecidableEq, Repr

structure CrawlSt where
  visited : List String
  queue : List (String × Nat)
  workers : List WorkerSt
  counter : Nat
  adds : Nat
  dones : Nat
  fetched : List (String × Nat)
deriving DecidableEq, Repr

/-- Links a freshly dispatched worker will iterate over: the `links`
slice of `fetchAndProcess` (empty whenever any early return fired). -/
def pendingOf (env : Env) (cfg : Cfg) (initialHost u : String) : List String :=
  (processURL env cfg initialHost u).links

/-- Dequeue-loop body (lines 70-85) applied to the dequeued task `(u, d)`
on the state `s` in which the task has already been removed from the
queue: skip visited URLs (`wg.Done`), otherwise mark the URL visited,
then either skip for depth (`wg.Done`) or dispatch `fetchAndProcess`. -/
def handleDeq (env : Env) (cfg : Cfg) (initialHost u : String) (d : Nat)
    (s : CrawlSt) : CrawlSt :=
  if s.visited.contains u then
    { s with counter := s.counter - 1, dones := s.dones + 1 }
  else
    let s1 := { s with visited := u :: s.visited }
    if cfg.maxDepth < d then
      { s1 with counter := s1.counter - 1, dones := s1.dones + 1 }
    else
      { s1 with
        workers := ⟨u, d, pendingOf env cfg initialHost u⟩ :: s1.workers,
        fetched := (u, d) :: s1.fetched }

/-- One iteration of a worker's enqueue loop (lines 162-181) for the link
`l` at worker depth `d`: parse the link (skip on failure), follow it only
when its host equals the initial host, and under the mutex enqueue it at
depth `d+1` (with `wg.Add(1)`) unless already visited.  The channel send
is taken to succeed immediately here — its capacity-100 buffer and the
blocking of a send under the held mutex are modelled by `BStep` below,
which is what settles termination; this unbounded version only
over-approximates the interleavings, which is conservative for the
safety properties proved over `Step`. -/
def stepLink (env : Env) (initialHost : String) (d : Nat) (l : String)
    (s : CrawlSt) : CrawlSt :=
  match env.parseURL l with
  | none => s
  | some pl =>
    if pl.host = initialHost then
      if s.visited.contains l then s
      else
        { s with
          adds := s.adds + 1,
          counter := s.counter + 1,
          queue := s.queue ++ [(l, d + 1)] }
    else s

/-- Initial state: the seed enqueued at depth 0 after the initial
`wg.Add(1)` (lines 58-68). -/
def initSt (seedURL : String) : CrawlSt :=
  ⟨[], [(seedURL, 0)], [], 1, 1, 0, []⟩

/-- Interleaving semantics of the crawl. -/
inductive Step (env : Env) (cfg : Cfg) (initialHost : String) :
    CrawlSt → CrawlSt → Prop where
  | deq (s : CrawlSt) (u : String) (d : Nat) (q' : List (String × Nat)) :
      s.queue = (u, d) :: q' →
      Step env cfg initialHost s (handleDeq env cfg initialHost u d { s with queue := q' })
  | work (s : CrawlSt) (ws1 : List WorkerSt) (w : WorkerSt) (ws2 : List WorkerSt)
      (l : String) (ls : List String) :
      s.workers = ws1 ++ w :: ws2 →
      w.pending = l :: ls →
      Step env cfg initialHost s
        (stepLink env initialHost w.depth l
          { s with workers := ws1 ++ ⟨w.url, w.depth, ls⟩ :: ws2 })
  | finish (s : CrawlSt) (ws1 : List WorkerSt) (w : WorkerSt) (ws2 : List WorkerSt) :
      s.workers = ws1 ++ w :: ws2 →
      w.pending = [] →
      Step env cfg initialHost s
        { s with workers := ws1 ++ ws2, counter := s.counter - 1, dones := s.dones + 1 }

/-- States reachable by interleaved execution. -/
def Reach (env : Env) (cfg : Cfg) (initialHost : String) : CrawlSt → CrawlSt → Prop :=
  Relation.ReflTransGen (Step env cfg initialHost)

/-! A deterministic scheduler for concrete executions: it runs worker
steps before dequeues; each emitted state is one `Step`. -/

def crawlStep (env : Env) (cfg : Cfg) (initialHost : String) (s : CrawlSt) :
    Option CrawlSt :=
  match s.workers with
  | w :: ws =>
    match w.pending with
    | l :: ls =>
        some (stepLink env initialHost w.depth l
          { s with workers := ⟨w.url, w.depth, ls⟩ :: ws })
    | [] => some { s with workers := ws, counter := s.counter - 1, dones := s.dones + 1 }
  | [] =>
    match s.queue with
    | (u, d) :: q' => some (handleDeq env cfg initialHost u d { s with queue := q' })
    | [] => none

def runCrawl (env : Env) (cfg : Cfg) (initialHost : String) :
    Nat → CrawlSt → CrawlSt
  | 0, s => s
  | fuel + 1, s =>
    match crawlStep env cfg initialHost s with
    | none => s
    | some s' => runCrawl env cfg initialHost fuel s'

/-- `DownloadDoc` (lines 44-89): parse the seed URL — the only failure
that is ever returned — then crawl from the seed with the parsed host as
the initial host, and return successfully. -/
def downloadDoc (env : Env) (cfg : Cfg) (seedURL : String) (fuel : Nat) :
    Except String CrawlSt :=
  match env.parseURL seedURL with
  | none => .error ("invalid initial URL")
  | some u => .ok (runCrawl env cfg u.host fuel (initSt seedURL))

/-! ## Crawl invariants -/

/-- Helper: `List.contains` agrees with membership on strings. -/
theorem contains_iff_mem (l : List String) (a : String) :
    l.contains a = true ↔ a ∈ l := by simp

/-- Core invariant of the crawl, for initial host `initialHost` and seed
`seedURL`:
* `cnt`: the WaitGroup counter equals queued tasks plus live workers;
* `pair`: every `wg.Add` so far is matched by a later `wg.Done` or by a
  unit still accounted in the counter;
* `nodup`: no URL has been dispatched to `fetchAndProcess` twice;
* `fsub`: every dispatched URL is in the visited set;
* `fdep`: every dispatched task's depth is at most `maxDepth`;
* `fhost`: every dispatched URL is the seed or has the initial host;
* `qhost`: every queued task is the seed at depth 0 or has the initial
  host. -/
structure InvCore (env : Env) (cfg : Cfg) (initialHost seedURL : String)
    (s : CrawlSt) : Prop where
  cnt : s.counter = s.queue.length + s.workers.length
  pair : s.adds = s.dones + s.counter
  nodup : (s.fetched.map Prod.fst).Nodup
  fsub : ∀ p ∈ s.fetched, p.1 ∈ s.visited
  fdep : ∀ p ∈ s.fetched, p.2 ≤ cfg.maxDepth
  fhost : ∀ p ∈ s.fetched, p.1 = seedURL ∨ hostOf env p.1 = some initialHost
  qhost : ∀ p ∈ s.queue, (p.1 = seedURL ∧ p.2 = 0) ∨ hostOf env p.1 = some initialHost

theorem invCore_init (env : Env) (cfg : Cfg) (initialHost seedURL : String) :
    InvCore env cfg initialHost seedURL (initSt seedURL) := by
  constructor <;> simp [initSt]

/-! Branch characterizations of the two deterministic bodies; each states
exactly what one path of the Go code does to the state. -/

theorem handleDeq_visited (env : Env) (cfg : Cfg) (ih u : String) (d : Nat)
    (s : CrawlSt) (h : u ∈ s.visited) :
    handleDeq env cfg ih u d s =
      { s with counter := s.counter - 1, dones := s.dones + 1 } := by
  simp [handleDeq, h]

theorem handleDeq_depth (env : Env) (cfg : Cfg) (ih u : String) (d : Nat)
    (s : CrawlSt) (h : u ∉ s.visited) (hd : cfg.maxDepth < d) :
    handleDeq env cfg ih u d s =
      { s with visited := u :: s.visited,
               counter := s.counter - 1, dones := s.dones + 1 } := by
  simp [handleDeq, h, hd]

theorem handleDeq_spawn (env : Env) (cfg : Cfg) (ih u : String) (d : Nat)
    (s : CrawlSt) (h : u ∉ s.visited) (hd : ¬ cfg.maxDepth < d) :
    handleDeq env cfg ih u d s =
      { s with visited := u :: s.visited,
               workers := ⟨u, d, pendingOf env cfg ih u⟩ :: s.workers,
               fetched := (u, d) :: s.fetched } := by
  simp [handleDeq, h, hd]

theorem stepLink_noparse (env : Env) (ih : String) (d : Nat) (l : String)
    (s : CrawlSt) (h : env.parseURL l = none) : stepLink env ih d l s = s := by
  simp [stepLink, h]

theorem stepLink_crosshost (env : Env) (ih : String) (d : Nat) (l : String)
    (s : CrawlSt) (pl : GoURL) (h : env.parseURL l = some pl)
    (hh : pl.host ≠ ih) : stepLink env ih d l s = s := by
  simp [stepLink, h, hh]

theorem stepLink_visited (env : Env) (ih : String) (d : Nat) (l : String)
    (s : CrawlSt) (pl : GoURL) (h : env.parseURL l = some pl)
    (hh : pl.host = ih) (hv : l ∈ s.visited) :
    stepLink env ih d l s = s := by
  simp [stepLink, h, hh, hv]

theorem stepLink_enq (env : Env) (ih : String) (d : Nat) (l : String)
    (s : CrawlSt) (pl : GoURL) (h : env.parseURL l = some pl)
    (hh : pl.host = ih) (hv : l ∉ s.visited) :
    stepLink env ih d l s =
      { s with adds := s.adds + 1, counter := s.counter + 1,
               queue := s.queue ++ [(l, d + 1)] } := by
  simp [stepLink, h, hh, hv]

theorem invCore_step (env : Env) (cfg : Cfg) (initialHost seedURL : String)
    (s s' : CrawlSt) (hI : InvCore env cfg initialHost seedURL s)
    (h : Step env cfg initialHost s s') :
    InvCore env cfg initialHost seedURL s' := by
  obtain ⟨cnt, pair, nodup, fsub, fdep, fhost, qhost⟩ := hI
  cases h with
  | deq u d q' hq =>
    rw [hq] at cnt qhost
    simp only [List.length_cons] at cnt
    by_cases hv : u ∈ s.visited
    · rw [handleDeq_visited env cfg initialHost u d { s with queue := q' } hv]
      refine ⟨by simp; omega, by simp; omega, nodup, fsub, fdep, fhost, ?_⟩
      intro p hp
      exact qhost p (List.mem_cons_of_mem _ hp)
    · by_cases hd : cfg.maxDepth < d
      · rw [handleDeq_depth env cfg initialHost u d { s with queue := q' } hv hd]
        refine ⟨by simp; omega, by simp; omega, nodup, ?_, fdep, fhost, ?_⟩
        · intro p hp
          exact List.mem_cons_of_mem u (fsub p hp)
        · intro p hp
          exact qhost p (List.mem_cons_of_mem _ hp)
      · rw [handleDeq_spawn env cfg initialHost u d { s with queue := q' } hv hd]
        refine ⟨by simp; omega, by simp; omega, ?_, ?_, ?_, ?_, ?_⟩
        · simp only [List.map_cons, List.nodup_cons]
          refine ⟨fun hmem => ?_, nodup⟩
          obtain ⟨p, hp, hpu⟩ := List.mem_map.mp hmem
          exact hv (hpu ▸ fsub p hp)
        · intro p hp
          rcases List.mem_cons.mp hp with h1 | h1
          · simp [h1]
          · exact List.mem_cons_of_mem u (fsub p h1)
        · intro p hp
          rcases List.mem_cons.mp hp with h1 | h1
          · simp [h1]; omega
          · exact fdep p h1
        · intro p hp
          rcases List.mem_cons.mp hp with h1 | h1
          · have h2 := qhost (u, d) (List.mem_cons_self _ _)
            subst h1
            tauto
          · exact fhost p h1
        · intro p hp
          exact qhost p (List.mem_cons_of_mem _ hp)
  | work ws1 w ws2 l ls hw hp =>
    rw [hw] at cnt
    simp only [List.length_append, List.length_cons] at cnt
    cases hpl : env.parseURL l with
    | none =>
      rw [stepLink_noparse env initialHost w.depth l { s with workers := ws1 ++ ⟨w.url, w.depth, ls⟩ :: ws2 } hpl]
      exact ⟨by simp; omega, by simp; omega, nodup, fsub, fdep, fhost, qhost⟩
    | some pl =>
      by_cases hh : pl.host = initialHost
      · by_cases hv : l ∈ s.visited
        · rw [stepLink_visited env initialHost w.depth l { s with workers := ws1 ++ ⟨w.url, w.depth, ls⟩ :: ws2 } pl hpl hh hv]
          exact ⟨by simp; omega, by simp; omega, nodup, fsub, fdep, fhost, qhost⟩
        · rw [stepLink_enq env initialHost w.depth l { s with workers := ws1 ++ ⟨w.url, w.depth, ls⟩ :: ws2 } pl hpl hh hv]
          refine ⟨by simp; omega, by simp; omega, nodup, fsub, fdep, fhost, ?_⟩
          intro p hpmem
          have hpmem' : p ∈ s.queue ++ [(l, w.depth + 1)] := hpmem
          rcases List.mem_append.mp hpmem' with h1 | h1
          · exact qhost p h1
          · right
            have h2 : p = (l, w.depth + 1) := List.mem_singleton.mp h1
            simp [h2, hostOf, hpl, hh]
      · rw [stepLink_crosshost env initialHost w.depth l { s with workers := ws1 ++ ⟨w.url, w.depth, ls⟩ :: ws2 } pl hpl hh]
        exact ⟨by simp; omega, by simp; omega, nodup, fsub, fdep, fhost, qhost⟩
  | finish ws1 w ws2 hw hp =>
    rw [hw] at cnt
    simp only [List.length_append, List.length_cons] at cnt
    exact ⟨by simp; omega, by simp; omega, nodup, fsub, fdep, fhost, qhost⟩

theorem invCore_reach (env : Env) (cfg : Cfg) (initialHost seedURL : String)
    (s : CrawlSt) (h : Reach env cfg initialHost (initSt seedURL) s) :
    InvCore env cfg initialHost seedURL s := by
  induction h with
  | refl => exact invCore_init env cfg initialHost seedURL
  | tail hab hbc ih => exact invCore_step env cfg initialHost seedURL _ _ ih hbc

/-! ## Concrete instances used in the examples below

A two-page site on host `h`: the root page links (relatively) to `a` and
to `a#x`; both resolve on host `h`.  `envFail` is a degenerate
environment in which every network fetch fails. -/

def pageTree : HNode :=
  .elem ("html") []
    (.cons (.elem ("a") [(("href"), ("a"))] .nil)
      (.cons (.elem ("a") [(("href"), ("a#x"))] .nil) .nil))

def envH : Env where
  parseURL := fun u =>
    if u = ("http://h/") then some ⟨("http"), ("h"), ("/"), ("")⟩
    else if u = ("http://h/a") then some ⟨("http"), ("h"), ("/a"), ("")⟩
    else if u = ("http://h/a#x") then some ⟨("http"), ("h"), ("/a"), ("x")⟩
    else if u = ("http://o/") then some ⟨("http"), ("o"), ("/"), ("")⟩
    else if u = ("a") then some ⟨(""), (""), ("a"), ("")⟩
    else if u = ("a#x") then some ⟨(""), (""), ("a"), ("x")⟩
    else none
  resolveRef := fun b r =>
    if r.host = ("") then ⟨b.scheme, b.host, ("/") ++ r.path, r.frag⟩ else r
  urlStr := fun g =>
    g.scheme ++ ("://") ++ g.host ++ g.path ++
      (if g.frag = ("") then ("") else ("#") ++ g.frag)
  httpGet := fun u =>
    if u = ("http://h/") then some (200, some ("<page>"))
    else if u = ("http://h/a") ∨ u = ("http://h/a#x") then some (200, some ("leaf"))
    else none
  mkdirOk := fun _ => true
  writeOk := fun _ => true
  parseHTML := fun b =>
    if b = ("<page>") then some pageTree
    else if b = ("leaf") then some (.text ("leaf")) else none

/-- The same site, with every directory creation failing. -/
def envS : Env := { envH with mkdirOk := fun _ => false }

/-- A degenerate environment: every fetch is a network error. -/
def envFail : Env where
  parseURL := fun _ => none
  resolveRef := fun _ r => r
  urlStr := fun g => g.path
  httpGet := fun _ => none
  mkdirOk := fun _ => true
  writeOk := fun _ => true
  parseHTML := fun _ => none

def cfgH : Cfg := ⟨1, ("dl"), ("n"), ("v")⟩

def cfgH0 : Cfg := ⟨0, ("dl"), ("n"), ("v")⟩

/-- **C2.** For every crawl and every URL string, `fetchAndProcess` is
dispatched at most once for that URL: in every reachable state the log
of dispatched fetches has no duplicate URL, every dispatched URL was
claimed in the visited set first, and a dequeued URL already present in
the visited set is skipped — counted done without being dispatched. -/
theorem c2_fetch_at_most_once (env : Env) (cfg : Cfg)
    (initialHost seedURL : String) (s : CrawlSt)
    (h : Reach env cfg initialHost (initSt seedURL) s) :
    ((s.fetched.map Prod.fst).Nodup) ∧
    (∀ p ∈ s.fetched, p.1 ∈ s.visited) ∧
    (∀ u d, u ∈ s.visited →
      (handleDeq env cfg initialHost u d s).fetched = s.fetched ∧
      (handleDeq env cfg initialHost u d s).dones = s.dones + 1) := by
  have hinv := invCore_reach env cfg initialHost seedURL s h
  refine ⟨hinv.nodup, hinv.fsub, ?_⟩
  intro u d hv
  rw [handleDeq_visited env cfg initialHost u d s hv]
  exact ⟨rfl, rfl⟩

theorem c2_witness :
    (((initSt ("http://h/")).fetched.map Prod.fst).Nodup) ∧
    (∀ p ∈ (initSt ("http://h/")).fetched, p.1 ∈ (initSt ("http://h/")).visited) ∧
    (∀ u d, u ∈ (initSt ("http://h/")).visited →
      (handleDeq envFail cfgH ("h") u d (initSt ("http://h/"))).fetched =
        (initSt ("http://h/")).fetched ∧
      (handleDeq envFail cfgH ("h") u d (initSt ("http://h/"))).dones =
        (initSt ("http://h/")).dones + 1) :=
  c2_fetch_at_most_once envFail cfgH ("h") ("http://h/") (initSt ("http://h/"))
    Relation.ReflTransGen.refl

/-- **C3.** In every reachable state, every task dispatched to
`fetchAndProcess` was dequeued at a depth at most `maxDepth`, and a task
dequeued at depth greater than `maxDepth` never dispatches a fetch (the
dispatch log is unchanged by handling it). -/
theorem c3_depth_bound (env : Env) (cfg : Cfg)
    (initialHost seedURL : String) (s : CrawlSt)
    (h : Reach env cfg initialHost (initSt seedURL) s) :
    (∀ p ∈ s.fetched, p.2 ≤ cfg.maxDepth) ∧
    (∀ u d, cfg.maxDepth < d →
      (handleDeq env cfg initialHost u d s).fetched = s.fetched) := by
  have hinv := invCore_reach env cfg initialHost seedURL s h
  refine ⟨hinv.fdep, ?_⟩
  intro u d hd
  by_cases hv : u ∈ s.visited
  · rw [handleDeq_visited env cfg initialHost u d s hv]
  · rw [handleDeq_depth env cfg initialHost u d s hv hd]

theorem c3_witness :
    (∀ p ∈ (initSt ("http://h/")).fetched, p.2 ≤ cfgH.maxDepth) ∧
    (∀ u d, cfgH.maxDepth < d →
      (handleDeq envFail cfgH ("h") u d (initSt ("http://h/"))).fetched =
        (initSt ("http://h/")).fetched) :=
  c3_depth_bound envFail cfgH ("h") ("http://h/") (initSt ("http://h/"))
    Relation.ReflTransGen.refl

/-- **C6.** `DownloadDoc` returns an error exactly when parsing the seed
URL fails; whenever the seed parses, the crawl runs (with the parsed
host as initial host) and `DownloadDoc` returns successfully no matter
how many per-task failures the environment produces. -/
theorem c6_error_iff_bad_seed (env : Env) (cfg : Cfg) (seedURL : String)
    (fuel : Nat) :
    ((∃ e, downloadDoc env cfg seedURL fuel = Except.error e) ↔
      env.parseURL seedURL = none) ∧
    (∀ pu, env.parseURL seedURL = some pu →
      downloadDoc env cfg seedURL fuel =
        Except.ok (runCrawl env cfg pu.host fuel (initSt seedURL))) := by
  cases h : env.parseURL seedURL with
  | none =>
    refine ⟨⟨fun _ => rfl, fun _ => ⟨("invalid initial URL"), by simp [downloadDoc, h]⟩⟩, ?_⟩
    intro pu hpu
    exact Option.noConfusion hpu
  | some pu =>
    refine ⟨⟨fun he => ?_, fun hc => Option.noConfusion hc⟩, ?_⟩
    · obtain ⟨e, he⟩ := he
      rw [downloadDoc, h] at he
      cases he
    · intro pu' hpu'
      cases Option.some.inj hpu'
      simp [downloadDoc, h]

/-- **C9.** A discovered link whose resolved host differs from the
crawl's initial host appears in the extractor output (the extractor is
host-blind: any anchor with a nonempty resolution contributes it), but
the enqueue loop leaves the state untouched for it — it is never
enqueued — and consequently in every reachable state every dispatched
URL is the seed or has the initial host. -/
theorem c9_cross_host_never_enqueued (env : Env) (cfg : Cfg)
    (initialHost seedURL : String) :
    (∀ baseURL v, resolveURL env baseURL v ≠ ("") →
      resolveURL env baseURL v ∈
        extractLinks env (.elem ("a") [(("href"), v)] .nil) baseURL) ∧
    (∀ d l s, hostOf env l ≠ some initialHost →
      stepLink env initialHost d l s = s) ∧
    (∀ s, Reach env cfg initialHost (initSt seedURL) s →
      ∀ p ∈ s.fetched, p.1 = seedURL ∨ hostOf env p.1 = some initialHost) := by
  refine ⟨?_, ?_, ?_⟩
  · intro baseURL v hne
    simp [extractLinks, extractLinksF, attrLink, hne]
  · intro d l s hh
    cases hpl : env.parseURL l with
    | none => exact stepLink_noparse env initialHost d l s hpl
    | some pl =>
      refine stepLink_crosshost env initialHost d l s pl hpl ?_
      intro heq
      exact hh (by simp [hostOf, hpl, heq])
  · intro s hs
    exact (invCore_reach env cfg initialHost seedURL s hs).fhost

/-! ## C4: a depth-exceeded task claims its URL -/

def stC4 : CrawlSt := ⟨[], [(("http://h/a"), 1)], [], 1, 1, 0, []⟩

/-- Counterexample to C4 as stated.  With `maxDepth = 0`, dequeuing the
unvisited task `(http://h/a, 1)` — depth exceeding the maximum — is a
legal step, and afterwards the URL IS in the visited set: the dequeue
loop claims the URL (line 77) before the depth test (line 80), so the
claim's frame condition on the visited set fails. -/
theorem c4_counterexample :
    Step envH cfgH0 ("h") stC4
      (handleDeq envH cfgH0 ("h") ("http://h/a") 1 { stC4 with queue := [] }) ∧
    cfgH0.maxDepth < 1 ∧
    ("http://h/a") ∉ stC4.visited ∧
    ("http://h/a") ∈
      (handleDeq envH cfgH0 ("h") ("http://h/a") 1 { stC4 with queue := [] }).visited :=
  ⟨Step.deq stC4 ("http://h/a") 1 [] rfl, by decide, by decide, by decide⟩

/-- **C4 (amended).** A dequeued task whose depth exceeds the configured
maximum is counted as done immediately (`wg.Done`, no dispatch, no
worker spawned) and is never fetched — but, unlike the claim's frame
condition, the URL IS claimed: it is inserted into the visited set
before the depth test. -/
theorem c4_amended (env : Env) (cfg : Cfg) (ih u : String) (d : Nat)
    (s : CrawlSt) (hv : u ∉ s.visited) (hd : cfg.maxDepth < d) :
    (handleDeq env cfg ih u d s).fetched = s.fetched ∧
    (handleDeq env cfg ih u d s).workers = s.workers ∧
    (handleDeq env cfg ih u d s).counter = s.counter - 1 ∧
    (handleDeq env cfg ih u d s).dones = s.dones + 1 ∧
    (handleDeq env cfg ih u d s).visited = u :: s.visited := by
  rw [handleDeq_depth env cfg ih u d s hv hd]
  exact ⟨rfl, rfl, rfl, rfl, rfl⟩

theorem c4_amended_witness :
    (handleDeq envH cfgH0 ("h") ("http://h/a") 1 { stC4 with queue := [] }).fetched =
      ({ stC4 with queue := [] } : CrawlSt).fetched ∧
    (handleDeq envH cfgH0 ("h") ("http://h/a") 1 { stC4 with queue := [] }).workers =
      ({ stC4 with queue := [] } : CrawlSt).workers ∧
    (handleDeq envH cfgH0 ("h") ("http://h/a") 1 { stC4 with queue := [] }).counter =
      ({ stC4 with queue := [] } : CrawlSt).counter - 1 ∧
    (handleDeq envH cfgH0 ("h") ("http://h/a") 1 { stC4 with queue := [] }).dones =
      ({ stC4 with queue := [] } : CrawlSt).dones + 1 ∧
    (handleDeq envH cfgH0 ("h") ("http://h/a") 1 { stC4 with queue := [] }).visited =
      ("http://h/a") :: ({ stC4 with queue := [] } : CrawlSt).visited :=
  c4_amended envH cfgH0 ("h") ("http://h/a") 1 { stC4 with queue := [] }
    (by decide) (by decide)

/-! ## C5: a storage failure aborts the task before link extraction -/

/-- Counterexample to C5 as stated.  With every directory creation
failing, fetching the root page ends in `mkdirError`: nothing is
indexed and the link list is EMPTY — even though the body fetched into
memory parses to a page whose extracted links are two same-host URLs.
Link extraction does not proceed past a storage failure. -/
theorem c5_counterexample :
    (processURL envS cfgH ("h") ("http://h/")).outcome = ProcOutcome.mkdirError ∧
    (processURL envS cfgH ("h") ("http://h/")).links = [] ∧
    (processURL envS cfgH ("h") ("http://h/")).indexed = none ∧
    envS.httpGet ("http://h/") = some (200, some ("<page>")) ∧
    envS.parseHTML ("<page>") = some pageTree ∧
    extractLinks envS pageTree ("http://h/") = [("http://h/a"), ("http://h/a#x")] :=
  ⟨by decide, by decide, by decide, by decide, rfl, by decide⟩

/-- **C5 (amended).** For every fetched page on which creating the
destination directory or writing the page file fails, `fetchAndProcess`
returns early: the outcome is the storage error, nothing is indexed and
no links are extracted — so nothing is enqueued, and the task's only
remaining effect is its deferred `wg.Done` (a worker holding the empty
link list can only take the finishing step, which counts it done). -/
theorem c5_amended (env : Env) (cfg : Cfg) (ih u : String)
    (st : Nat) (body : String) (pu : GoURL)
    (hget : env.httpGet u = some (st, some body)) (hst : st = 200)
    (hpu : env.parseURL u = some pu)
    (hfail : env.mkdirOk (dirOf (filePathOf cfg ih pu)) = false ∨
             env.writeOk (filePathOf cfg ih pu) = false) :
    (processURL env cfg ih u).links = [] ∧
    (processURL env cfg ih u).indexed = none ∧
    ((processURL env cfg ih u).outcome = ProcOutcome.mkdirError ∨
     (processURL env cfg ih u).outcome = ProcOutcome.writeError) ∧
    (∀ (d : Nat) (s : CrawlSt) (ws : List WorkerSt),
      s.workers = ⟨u, d, (processURL env cfg ih u).links⟩ :: ws →
      Step env cfg ih s
        { s with workers := ws, counter := s.counter - 1, dones := s.dones + 1 }) := by
  subst hst
  have hproc : processURL env cfg ih u = ⟨.mkdirError, none, none, []⟩ ∨
      processURL env cfg ih u = ⟨.writeError, none, none, []⟩ := by
    by_cases hm : env.mkdirOk (dirOf (filePathOf cfg ih pu)) = false
    · left
      simp [processURL, hget, hpu, hm]
    · right
      have hw : env.writeOk (filePathOf cfg ih pu) = false := by tauto
      simp [processURL, hget, hpu, hm, hw]
  have hlinks : (processURL env cfg ih u).links = [] := by
    rcases hproc with h | h <;> rw [h]
  have hidx : (processURL env cfg ih u).indexed = none := by
    rcases hproc with h | h <;> rw [h]
  refine ⟨hlinks, hidx, ?_, ?_⟩
  · rcases hproc with h | h
    · left; rw [h]
    · right; rw [h]
  · intro d s ws hw
    have hfin : (⟨u, d, (processURL env cfg ih u).links⟩ : WorkerSt).pending = [] := hlinks
    have hstep := @Step.finish env cfg ih s []
      ⟨u, d, (processURL env cfg ih u).links⟩ ws (by rw [hw]; rfl) hfin
    simpa using hstep

theorem c5_amended_witness :
    (processURL envS cfgH ("h") ("http://h/")).links = [] ∧
    (processURL envS cfgH ("h") ("http://h/")).indexed = none ∧
    ((processURL envS cfgH ("h") ("http://h/")).outcome = ProcOutcome.mkdirError ∨
     (processURL envS cfgH ("h") ("http://h/")).outcome = ProcOutcome.writeError) ∧
    (∀ (d : Nat) (s : CrawlSt) (ws : List WorkerSt),
      s.workers = ⟨("http://h/"), d, (processURL envS cfgH ("h") ("http://h/")).links⟩ :: ws →
      Step envS cfgH ("h") s
        { s with workers := ws, counter := s.counter - 1, dones := s.dones + 1 }) :=
  c5_amended envS cfgH ("h") ("http://h/") 200 ("<page>")
    ⟨("http"), ("h"), ("/"), ("")⟩ (by decide) rfl (by decide) (Or.inl (by decide))

/-! ## C9 and C10 concrete parts -/

theorem c9_witness :
    resolveURL envH ("http://h/") ("a") ≠ ("") ∧
    resolveURL envH ("http://h/") ("a") ∈
      extractLinks envH (.elem ("a") [(("href"), ("a"))] .nil) ("http://h/") ∧
    hostOf envH ("http://o/") ≠ some ("h") ∧
    stepLink envH ("h") 0 ("http://o/") stC4 = stC4 ∧
    (∀ p ∈ (initSt ("http://h/")).fetched,
      p.1 = ("http://h/") ∨ hostOf envH p.1 = some ("h")) :=
  ⟨by decide,
   (c9_cross_host_never_enqueued envH cfgH ("h") ("http://h/")).1
     ("http://h/") ("a") (by decide),
   by decide,
   (c9_cross_host_never_enqueued envH cfgH ("h") ("http://h/")).2.1
     0 ("http://o/") stC4 (by decide),
   (c9_cross_host_never_enqueued envH cfgH ("h") ("http://h/")).2.2
     (initSt ("http://h/")) Relation.ReflTransGen.refl⟩

/-- **C10.** Visited-set membership is keyed on the exact resolved URL
string with no normalization: claiming one URL never claims a textually
different one; and in the concrete two-page site the resolved strings
`http://h/a` and `http://h/a#x` — which the server answers identically
(same page content) — are claimed independently and each is fetched, so
the same page is retrieved twice under distinct URL strings. -/
theorem c10_exact_string_keying :
    (∀ (env : Env) (cfg : Cfg) (ih : String) (s : CrawlSt)
       (u1 u2 : String) (d : Nat),
      u1 ≠ u2 → u2 ∉ s.visited → u2 ∉ (handleDeq env cfg ih u1 d s).visited) ∧
    ((runCrawl envH cfgH ("h") 30 (initSt ("http://h/"))).fetched.map Prod.fst =
      [("http://h/a#x"), ("http://h/a"), ("http://h/")]) ∧
    envH.httpGet ("http://h/a") = envH.httpGet ("http://h/a#x") := by
  refine ⟨?_, by decide, by decide⟩
  intro env cfg ih s u1 u2 d hne hnv
  by_cases hv : u1 ∈ s.visited
  · rw [handleDeq_visited env cfg ih u1 d s hv]
    exact hnv
  · by_cases hd : cfg.maxDepth < d
    · rw [handleDeq_depth env cfg ih u1 d s hv hd]
      intro hmem
      rcases List.mem_cons.mp hmem with h1 | h1
      · exact hne h1.symm
      · exact hnv h1
    · rw [handleDeq_spawn env cfg ih u1 d s hv hd]
      intro hmem
      rcases List.mem_cons.mp hmem with h1 | h1
      · exact hne h1.symm
      · exact hnv h1

theorem c10_witness :
    ("http://h/") ≠ ("http://h/a") ∧
    ("http://h/a") ∉ (initSt ("http://h/")).visited ∧
    ("http://h/a") ∉
      (handleDeq envH cfgH ("h") ("http://h/") 0 (initSt ("http://h/"))).visited :=
  ⟨by decide, by decide,
   c10_exact_string_keying.1 envH cfgH ("h") (initSt ("http://h/"))
     ("http://h/") ("http://h/a") 0 (by decide) (by decide)⟩

/-! ## The index (indexer.go) -/

/-- Modelled from the spec: tokenization.  The query semantics of
`Indexer.Search` live in the external bleve engine, which is not part of
this repository's sources; the spec (section 4.4) requires only that the
content field is analyzed into natural-language tokens and that every
truly matching document's path appears in the result, in some
deterministic relevance order.  Tokens here are the maximal alphanumeric
runs of the text, lowercased. -/
def splitToks : List Char → List Char → List String
  | [], acc => if acc.isEmpty then [] else [String.mk acc.reverse]
  | c :: cs, acc =>
    if c.isAlphanum then splitToks cs (c.toLower :: acc)
    else (if acc.isEmpty then [] else [String.mk acc.reverse]) ++ splitToks cs []

/-- Modelled from the spec: natural-language tokenization of a field. -/
def tokenizeDoc (s : String) : List String :=
  splitToks s.data []

/-- Modelled from the spec: a document truly matches a query when every
query token occurs among the document's tokens. -/
def trulyMatches (content query : String) : Bool :=
  (tokenizeDoc query).all (fun t => (tokenizeDoc content).contains t)

/-- The index state: one entry per path, in insertion order. -/
structure BleveIndex where
  entries : List (String × String)
deriving DecidableEq, Repr

/-- `Indexer.AddDocument` (indexer.go lines 50-64): index the content
under the file path; re-indexing an existing path overwrites it. -/
def addDocument (idx : BleveIndex) (path content : String) : BleveIndex :=
  ⟨idx.entries.filter (fun e => e.1 ≠ path) ++ [(path, content)]⟩

/-- Modelled from the spec: the hits the engine returns for a query —
every truly matching document, insertion order as the deterministic
relevance order. -/
def searchHits (idx : BleveIndex) (query : String) : List String :=
  (idx.entries.filter (fun e => trulyMatches e.2 query)).map Prod.fst

/-- `Indexer.Search` (indexer.go lines 67-80): run the search and
collect `hit.ID` of every hit, in order. -/
def searchIndex (idx : BleveIndex) (query : String) : List String :=
  (searchHits idx query).foldl (fun acc h => acc ++ [h]) []

theorem foldl_append_id (l acc : List String) :
    l.foldl (fun acc h => acc ++ [h]) acc = acc ++ l := by
  induction l generalizing acc with
  | nil => simp
  | cons x xs ih => simp [List.foldl_cons, ih]

/-- **C7.** For every set of indexed documents and every query, `Search`
returns the path of every document that truly matches the query: all
true matches appear in the returned sequence (whose order — insertion
order of the index — is deterministic). -/
theorem c7_search_complete (idx : BleveIndex) (query path content : String)
    (hmem : (path, content) ∈ idx.entries)
    (hmatch : trulyMatches content query = true) :
    path ∈ searchIndex idx query := by
  rw [searchIndex, foldl_append_id]
  simp only [List.nil_append, searchHits]
  exact List.mem_map.mpr
    ⟨(path, content), List.mem_filter.mpr ⟨hmem, by simpa using hmatch⟩, rfl⟩

theorem c7_witness :
    ((("a/b"), ("The quick brown fox")) ∈
      (addDocument ⟨[]⟩ ("a/b") ("The quick brown fox")).entries) ∧
    trulyMatches ("The quick brown fox") ("quick") = true ∧
    ("a/b") ∈ searchIndex (addDocument ⟨[]⟩ ("a/b") ("The quick brown fox")) ("quick") :=
  ⟨by decide, by decide,
   c7_search_complete (addDocument ⟨[]⟩ ("a/b") ("The quick brown fox"))
     ("quick") ("a/b") ("The quick brown fox") (by decide) (by decide)⟩

theorem c6_witness :
    ((∃ e, downloadDoc envFail cfgH ("s") 5 = Except.error e) ↔
      envFail.parseURL ("s") = none) ∧
    (∀ pu, envFail.parseURL ("s") = some pu →
      downloadDoc envFail cfgH ("s") 5 =
        Except.ok (runCrawl envFail cfgH pu.host 5 (initSt ("s")))) :=
  c6_error_iff_bad_seed envFail cfgH ("s") 5

/-! ## The bounded queue channel (C1)

The queue of scraper.go line 56 is `make(chan ..., 100)`, and the send
of line 172 runs while `s.mu` is held.  `BState` carries exactly this:
the dequeue loop is either at the `range queue` receive or inside its
body (where its first action, line 71, needs the mutex); a worker
mid-iteration whose send met a full buffer holds the mutex — its
`wg.Add(1)` of line 171 already counted — until room appears.  The only
receiver of the channel is the dequeue loop itself. -/

/-- Capacity of the queue channel (scraper.go line 56). -/
def chanCap : Nat := 100

/-- Position of the dequeue loop: at the `range queue` receive, or
holding a dequeued task and about to run the loop body. -/
inductive MainSt where
  | atReceive : MainSt
  | handling (u : String) (d : Nat) : MainSt
deriving DecidableEq, Repr

/-- A live `fetchAndProcess` goroutine: links not yet iterated, and
`sending = some l` when it holds the mutex blocked on `queue <- l`. -/
structure BWorker where
  url : String
  depth : Nat
  pending : List String
  sending : Option String
deriving DecidableEq, Repr

structure BState where
  visited : List String
  queue : List (String × Nat)
  main : MainSt
  workers : List BWorker
  counter : Nat
  adds : Nat
  dones : Nat
  fetched : List (String × Nat)
deriving DecidableEq, Repr

/-- The dequeue-loop body (lines 70-85) on the task being handled, run
once the mutex is free: test-and-set, depth check, dispatch, then back
to the receive. -/
def bhandle (env : Env) (cfg : Cfg) (ih u : String) (d : Nat)
    (s : BState) : BState :=
  if s.visited.contains u then
    { s with main := .atReceive, counter := s.counter - 1, dones := s.dones + 1 }
  else
    let s1 := { s with visited := u :: s.visited }
    if cfg.maxDepth < d then
      { s1 with main := .atReceive,
                counter := s1.counter - 1, dones := s1.dones + 1 }
    else
      { s1 with main := .atReceive,
                workers := ⟨u, d, pendingOf env cfg ih u, none⟩ :: s1.workers,
                fetched := (u, d) :: s1.fetched }

/-- Bounded-channel interleaving semantics.  `recv` is the `range queue`
receive (no lock needed); `body` is the loop body, enabled only while no
worker holds the mutex; `skipLink`/`enq`/`blockSend` are one iteration
of a worker's enqueue loop under the mutex, where `blockSend` fires when
the buffer is full and leaves that worker holding the mutex with its
`wg.Add` already counted; `sendDone` completes such a blocked send once
room appears (and releases the mutex); `finish` is the worker's return
(`defer wg.Done`, outside any lock). -/
inductive BStep (env : Env) (cfg : Cfg) (ih : String) : BState → BState → Prop where
  | recv (s : BState) (u : String) (d : Nat) (q' : List (String × Nat)) :
      s.main = .atReceive → s.queue = (u, d) :: q' →
      BStep env cfg ih s { s with main := .handling u d, queue := q' }
  | body (s : BState) (u : String) (d : Nat) :
      s.main = .handling u d →
      (∀ w ∈ s.workers, w.sending = none) →
      BStep env cfg ih s (bhandle env cfg ih u d s)
  | skipLink (s : BState) (ws1 : List BWorker) (w : BWorker) (ws2 : List BWorker)
      (l : String) (ls : List String) :
      s.workers = ws1 ++ w :: ws2 → w.pending = l :: ls →
      (∀ w' ∈ s.workers, w'.sending = none) →
      (env.parseURL l = none ∨
        (∃ pl, env.parseURL l = some pl ∧ (pl.host ≠ ih ∨ l ∈ s.visited))) →
      BStep env cfg ih s
        { s with workers := ws1 ++ ⟨w.url, w.depth, ls, none⟩ :: ws2 }
  | enq (s : BState) (ws1 : List BWorker) (w : BWorker) (ws2 : List BWorker)
      (l : String) (ls : List String) (pl : GoURL) :
      s.workers = ws1 ++ w :: ws2 → w.pending = l :: ls →
      (∀ w' ∈ s.workers, w'.sending = none) →
      env.parseURL l = some pl → pl.host = ih → l ∉ s.visited →
      s.queue.length < chanCap →
      BStep env cfg ih s
        { s with adds := s.adds + 1, counter := s.counter + 1,
                 queue := s.queue ++ [(l, w.depth + 1)],
                 workers := ws1 ++ ⟨w.url, w.depth, ls, none⟩ :: ws2 }
  | blockSend (s : BState) (ws1 : List BWorker) (w : BWorker) (ws2 : List BWorker)
      (l : String) (ls : List String) (pl : GoURL) :
      s.workers = ws1 ++ w :: ws2 → w.pending = l :: ls →
      (∀ w' ∈ s.workers, w'.sending = none) →
      env.parseURL l = some pl → pl.host = ih → l ∉ s.visited →
      ¬ s.queue.length < chanCap →
      BStep env cfg ih s
        { s with adds := s.adds + 1, counter := s.counter + 1,
                 workers := ws1 ++ ⟨w.url, w.depth, ls, some l⟩ :: ws2 }
  | sendDone (s : BState) (ws1 : List BWorker) (w : BWorker) (ws2 : List BWorker)
      (l : String) :
      s.workers = ws1 ++ w :: ws2 → w.sending = some l →
      s.queue.length < chanCap →
      BStep env cfg ih s
        { s with queue := s.queue ++ [(l, w.depth + 1)],
                 workers := ws1 ++ ⟨w.url, w.depth, w.pending, none⟩ :: ws2 }
  | finish (s : BState) (ws1 : List BWorker) (w : BWorker) (ws2 : List BWorker) :
      s.workers = ws1 ++ w :: ws2 → w.sending = none → w.pending = [] →
      BStep env cfg ih s
        { s with workers := ws1 ++ ws2,
                 counter := s.counter - 1, dones := s.dones + 1 }

/-- Bounded-channel reachability. -/
def BReach (env : Env) (cfg : Cfg) (ih : String) : BState → BState → Prop :=
  Relation.ReflTransGen (BStep env cfg ih)

/-- Initial bounded state: seed enqueued at depth 0 after the initial
`wg.Add(1)`, loop at the receive. -/
def binit (seedURL : String) : BState :=
  ⟨[], [(seedURL, 0)], .atReceive, [], 1, 1, 0, []⟩

/-! A deterministic schedule exhibiting the deadlock: the head worker
acts whenever it can (completing a blocked send the moment room appears,
otherwise iterating its next link — the legal "barging" reacquisition of
the mutex ahead of the waiting loop), then the loop receives, then the
loop body runs. -/

def bAdvRest (env : Env) (cfg : Cfg) (ih : String) (s : BState) : Option BState :=
  match s.main with
  | .atReceive =>
    match s.queue with
    | (u, d) :: q' => some { s with main := .handling u d, queue := q' }
    | [] => none
  | .handling u d =>
    if s.workers.all (fun w' => w'.sending.isNone) then
      some (bhandle env cfg ih u d s)
    else none

def bAdvStep (env : Env) (cfg : Cfg) (ih : String) (s : BState) : Option BState :=
  match s.workers with
  | [] => bAdvRest env cfg ih s
  | w :: ws =>
    match w.sending with
    | some l =>
      if s.queue.length < chanCap then
        some { s with queue := s.queue ++ [(l, w.depth + 1)],
                      workers := ⟨w.url, w.depth, w.pending, none⟩ :: ws }
      else bAdvRest env cfg ih s
    | none =>
      match w.pending with
      | [] =>
        some { s with workers := ws,
                      counter := s.counter - 1, dones := s.dones + 1 }
      | l :: ls =>
        if s.workers.all (fun w' => w'.sending.isNone) then
          match env.parseURL l with
          | none => some { s with workers := ⟨w.url, w.depth, ls, none⟩ :: ws }
          | some pl =>
            if pl.host = ih then
              if s.visited.contains l then
                some { s with workers := ⟨w.url, w.depth, ls, none⟩ :: ws }
              else if s.queue.length < chanCap then
                some { s with adds := s.adds + 1, counter := s.counter + 1,
                              queue := s.queue ++ [(l, w.depth + 1)],
                              workers := ⟨w.url, w.depth, ls, none⟩ :: ws }
              else
                some { s with adds := s.adds + 1, counter := s.counter + 1,
                              workers := ⟨w.url, w.depth, ls, some l⟩ :: ws }
            else some { s with workers := ⟨w.url, w.depth, ls, none⟩ :: ws }
        else bAdvRest env cfg ih s

theorem all_sending_none (ws : List BWorker)
    (h : ws.all (fun w' => w'.sending.isNone) = true) :
    ∀ w' ∈ ws, w'.sending = none := by
  intro w' hw'
  have h2 := List.all_eq_true.mp h w' hw'
  simpa [Option.isNone_iff_eq_none] using h2

theorem bAdvRest_legal (env : Env) (cfg : Cfg) (ih : String) (s s' : BState)
    (h : bAdvRest env cfg ih s = some s') : BStep env cfg ih s s' := by
  unfold bAdvRest at h
  split at h
  · split at h
    · cases Option.some.inj h
      exact BStep.recv s _ _ _ (by assumption) (by assumption)
    · cases h
  · split at h
    · cases Option.some.inj h
      exact BStep.body s _ _ (by assumption)
        (all_sending_none s.workers (by assumption))
    · cases h

theorem bAdvStep_legal (env : Env) (cfg : Cfg) (ih : String) (s s' : BState)
    (h : bAdvStep env cfg ih s = some s') : BStep env cfg ih s s' := by
  unfold bAdvStep at h
  split at h
  · exact bAdvRest_legal env cfg ih s s' h
  · rename_i w ws hw
    split at h
    · rename_i l hsend
      split at h
      · rename_i hroom
        cases Option.some.inj h
        exact BStep.sendDone s [] w ws l hw hsend hroom
      · exact bAdvRest_legal env cfg ih s s' h
    · rename_i hsend
      split at h
      · rename_i hp
        cases Option.some.inj h
        exact BStep.finish s [] w ws hw hsend hp
      · rename_i l ls hp
        split at h
        · rename_i hfree
          split at h
          · rename_i hpl
            cases Option.some.inj h
            exact BStep.skipLink s [] w ws l ls hw hp
              (all_sending_none s.workers hfree) (Or.inl hpl)
          · rename_i pl hpl
            split at h
            · rename_i hh
              split at h
              · rename_i hv
                cases Option.some.inj h
                exact BStep.skipLink s [] w ws l ls hw hp
                  (all_sending_none s.workers hfree)
                  (Or.inr ⟨pl, hpl, Or.inr ((contains_iff_mem _ _).mp hv)⟩)
              · rename_i hv
                have hv' : l ∉ s.visited := fun hmem =>
                  hv ((contains_iff_mem _ _).mpr hmem)
                split at h
                · rename_i hroom
                  cases Option.some.inj h
                  exact BStep.enq s [] w ws l ls pl hw hp
                    (all_sending_none s.workers hfree) hpl hh hv' hroom
                · rename_i hroom
                  cases Option.some.inj h
                  exact BStep.blockSend s [] w ws l ls pl hw hp
                    (all_sending_none s.workers hfree) hpl hh hv' hroom
            · rename_i hh
              cases Option.some.inj h
              exact BStep.skipLink s [] w ws l ls hw hp
                (all_sending_none s.workers hfree) (Or.inr ⟨pl, hpl, Or.inl hh⟩)
        · exact bAdvRest_legal env cfg ih s s' h

def bRun (env : Env) (cfg : Cfg) (ih : String) : Nat → BState → BState
  | 0, s => s
  | fuel + 1, s =>
    match bAdvStep env cfg ih s with
    | none => s
    | some s' => bRun env cfg ih fuel s'

theorem bRun_reach (env : Env) (cfg : Cfg) (ih : String) (fuel : Nat) (s : BState) :
    BReach env cfg ih s (bRun env cfg ih fuel s) := by
  induction fuel generalizing s with
  | zero => exact Relation.ReflTransGen.refl
  | succ n ih2 =>
    show BReach env cfg ih s
      (match bAdvStep env cfg ih s with
       | none => s
       | some s' => bRun env cfg ih n s')
    cases hstep : bAdvStep env cfg ih s with
    | none => exact Relation.ReflTransGen.refl
    | some s2 =>
      exact Relation.ReflTransGen.head
        (bAdvStep_legal env cfg ih s s2 hstep) (ih2 s2)

/-! The failing input: a seed page carrying 102 same-host links.  (All
102 anchors point at the same target, which scraper.go enqueues once per
occurrence, since the enqueue-time check at line 170 consults only the
visited set, which grows at dequeue time — spec section 9 documents this
duplicate-enqueue behaviour.) -/

def anchorsN : Nat → HForest
  | 0 => .nil
  | n + 1 => .cons (.elem ("a") [(("href"), ("x"))] .nil) (anchorsN n)

def wideTree : HNode := .elem ("html") [] (anchorsN 102)

def envWide : Env where
  parseURL := fun u => some ⟨("http"), ("h"), u, ("")⟩
  resolveRef := fun _ r => r
  urlStr := fun g => g.path
  httpGet := fun u => if u = ("s") then some (200, some ("wide")) else none
  mkdirOk := fun _ => true
  writeOk := fun _ => true
  parseHTML := fun b => if b = ("wide") then some wideTree else none

/-- In a state where the dequeue loop holds a task (blocked at the
`mu.Lock` opening its body), the only worker holds the mutex blocked on
a send, and the buffer is full, nothing can step: a permanent deadlock —
the loop alone can receive, and it never returns to the receive. -/
theorem bstuck_deadlock (env : Env) (cfg : Cfg) (ih : String) (s : BState)
    (u : String) (d : Nat) (w : BWorker) (l : String)
    (hmain : s.main = .handling u d)
    (hw : s.workers = [w]) (hsend : w.sending = some l)
    (hq : ¬ s.queue.length < chanCap) :
    ¬ ∃ s', BStep env cfg ih s s' := by
  rintro ⟨s', hstep⟩
  have hwmem : w ∈ s.workers := by rw [hw]; exact List.mem_singleton_self w
  cases hstep with
  | recv u' d' q' h1 h2 =>
    rw [hmain] at h1
    cases h1
  | body u' d' h1 hfree =>
    have h2 := hfree w hwmem
    rw [hsend] at h2
    cases h2
  | skipLink ws1 w' ws2 l' ls' h1 h2 hfree h3 =>
    have h4 := hfree w hwmem
    rw [hsend] at h4
    cases h4
  | enq ws1 w' ws2 l' ls' pl h1 h2 hfree h3 h4 h5 h6 =>
    have h7 := hfree w hwmem
    rw [hsend] at h7
    cases h7
  | blockSend ws1 w' ws2 l' ls' pl h1 h2 hfree h3 h4 h5 h6 =>
    have h7 := hfree w hwmem
    rw [hsend] at h7
    cases h7
  | sendDone ws1 w' ws2 l' h1 h2 h3 =>
    exact hq h3
  | finish ws1 w' ws2 h1 h2 h3 =>
    rw [hw] at h1
    cases ws1 with
    | nil =>
      simp only [List.nil_append] at h1
      injection h1 with hA hB
      subst hA
      rw [hsend] at h2
      cases h2
    | cons a as =>
      injection h1 with hA hB
      simp at hB

/-- The state the schedule reaches: the buffer full with 100 copies of
the enqueued link, the dequeue loop holding the 101st task and waiting
for the mutex, and the worker holding the mutex blocked sending the
102nd occurrence, its `wg.Add` already counted. -/
def dState : BState :=
  ⟨[("s")], List.replicate 100 (("x"), 1), .handling ("x") 1,
   [⟨("s"), 0, [], some ("x")⟩], 103, 103, 0, [(("s"), 0)]⟩

/-- **C1.** The claim fails on the code as written, although its stated
mechanism — the `wg.Add`/`wg.Done` pairing — is implemented correctly:
with the capacity-100 queue channel of line 56 and the send of line 172
executed while `s.mu` is held, a seed page carrying 102 same-host links
drives the crawl, under a legal schedule, into a reachable state from
which no goroutine can act — the worker holds the mutex blocked on a
send into the full buffer, the dequeue loop is blocked at `mu.Lock`
inside its body and never returns to the only receive — while
outstanding work remains (counter 103, none of the 103 `wg.Add` yet
matched by a `wg.Done`).  The queue is never closed, the dequeue loop
never exits, and `DownloadDoc` never returns: the crawl does not
terminate for every finite same-host graph. -/
theorem c1_deadlock_reachable :
    BReach envWide cfgH ("h") (binit ("s")) dState ∧
    (¬ ∃ s', BStep envWide cfgH ("h") dState s') ∧
    dState.counter ≠ 0 ∧ dState.adds ≠ dState.dones ∧
    dState.queue.length = chanCap ∧
    dState.main = MainSt.handling ("x") 1 ∧
    dState.workers = [⟨("s"), 0, [], some ("x")⟩] := by
  refine ⟨?_, ?_, by decide, by decide, by decide, rfl, rfl⟩
  · have h := bRun_reach envWide cfgH ("h") 110 (binit ("s"))
    have he : bRun envWide cfgH ("h") 110 (binit ("s")) = dState := by decide
    rwa [he] at h
  · exact bstuck_deadlock envWide cfgH ("h") dState ("x") 1
      ⟨("s"), 0, [], some ("x")⟩ ("x") rfl rfl rfl (by decide)
